import Mathlib

set_option maxRecDepth 8000

/-!
Shallow embedding of the chess rules engine of `src/chess_gui.py`
(class `ChessGame`).  The board is a total map from integer coordinates
to optional pieces; only coordinates in `[0,7] × [0,7]` are real squares
and every access the Python code performs is guarded by that bound, as
the code itself does.  Mutating methods are embedded as pure functions
from the state to the new state; methods returning a success flag return
the flag alongside the state.
-/

inductive Color where
  | white
  | black
  deriving DecidableEq

inductive PieceType where
  | pawn
  | rook
  | knight
  | bishop
  | queen
  | king
  deriving DecidableEq

/-- A piece is a `(color, piece_type)` pair, as in the Python tuples. -/
abbrev Piece := Color × PieceType

/-- `self.board`: an 8×8 grid of optional pieces, embedded as a total map;
only arguments in `[0,7]` are ever read by guarded code. -/
abbrev Board := Int → Int → Option Piece

/-- `self.board[r][c] = v` as a functional update. -/
def set_square (b : Board) (r c : Int) (v : Option Piece) : Board :=
  fun x y => if x = r ∧ y = c then v else b x y

/-- `ChessGame.get_piece`: bounds-checked read (`None` outside the board). -/
def get_piece (b : Board) (row col : Int) : Option Piece :=
  if 0 ≤ row ∧ row < 8 ∧ 0 ≤ col ∧ col < 8 then b row col else none

/-- `ChessGame._get_pawn_moves`.  The `for dc in [-1, 1]` loop is unrolled
into its two iterations, in order. -/
def get_pawn_moves (b : Board) (row col : Int) (color : Color) : List (Int × Int) :=
  let direction : Int := if color = Color.white then -1 else 1
  let start_row : Int := if color = Color.white then 6 else 1
  let new_row := row + direction
  let forward : List (Int × Int) :=
    if 0 ≤ new_row ∧ new_row < 8 ∧ b new_row col = none then
      (new_row, col) ::
        (if row = start_row ∧ b (row + 2 * direction) col = none then
          [(row + 2 * direction, col)]
        else [])
    else []
  let diag : Int → List (Int × Int) := fun dc =>
    if 0 ≤ new_row ∧ new_row < 8 ∧ 0 ≤ col + dc ∧ col + dc < 8 then
      match b new_row (col + dc) with
      | some target => if target.1 ≠ color then [(new_row, col + dc)] else []
      | none => []
    else []
  forward ++ diag (-1) ++ diag 1

/-- One direction of `ChessGame._get_linear_moves`: the `while` loop that
steps outward from `(r, c)` by `(dr, dc)`.  The loop runs at most 7 times
from an on-board origin (the stepped coordinate is strictly monotone within
`[0,7]`), so fuel `8` never runs out on the inputs the program uses. -/
def walk_line (b : Board) (color : Color) (dr dc : Int) : Int → Int → Nat → List (Int × Int)
  | _, _, 0 => []
  | r, c, fuel + 1 =>
    if 0 ≤ r ∧ r < 8 ∧ 0 ≤ c ∧ c < 8 then
      match b r c with
      | none => (r, c) :: walk_line b color dr dc (r + dr) (c + dc) fuel
      | some target => if target.1 ≠ color then [(r, c)] else []
    else []

/-- `ChessGame._get_linear_moves`: accumulate the walks of each direction. -/
def get_linear_moves (b : Board) (row col : Int) (color : Color)
    (directions : List (Int × Int)) : List (Int × Int) :=
  directions.foldl
    (fun moves d => moves ++ walk_line b color d.1 d.2 (row + d.1) (col + d.2) 8) []

/-- `ChessGame._get_rook_moves`. -/
def get_rook_moves (b : Board) (row col : Int) (color : Color) : List (Int × Int) :=
  get_linear_moves b row col color [(0, 1), (0, -1), (1, 0), (-1, 0)]

/-- `ChessGame._get_bishop_moves`. -/
def get_bishop_moves (b : Board) (row col : Int) (color : Color) : List (Int × Int) :=
  get_linear_moves b row col color [(1, 1), (1, -1), (-1, 1), (-1, -1)]

/-- `ChessGame._get_queen_moves`. -/
def get_queen_moves (b : Board) (row col : Int) (color : Color) : List (Int × Int) :=
  get_linear_moves b row col color
    [(0, 1), (0, -1), (1, 0), (-1, 0), (1, 1), (1, -1), (-1, 1), (-1, -1)]

/-- The knight offsets of `ChessGame._get_knight_moves`, in source order. -/
def knight_offsets : List (Int × Int) :=
  [(-2, -1), (-2, 1), (-1, -2), (-1, 2), (1, -2), (1, 2), (2, -1), (2, 1)]

/-- `ChessGame._get_knight_moves`. -/
def get_knight_moves (b : Board) (row col : Int) (color : Color) : List (Int × Int) :=
  knight_offsets.foldl
    (fun moves d =>
      let r := row + d.1
      let c := col + d.2
      if 0 ≤ r ∧ r < 8 ∧ 0 ≤ c ∧ c < 8 then
        match b r c with
        | none => moves ++ [(r, c)]
        | some target => if target.1 ≠ color then moves ++ [(r, c)] else moves
      else moves) []

/-- The king offsets of `ChessGame._get_king_moves`: the double loop over
`dr, dc ∈ {-1,0,1}` skipping `(0,0)`, in iteration order. -/
def king_offsets : List (Int × Int) :=
  [(-1, -1), (-1, 0), (-1, 1), (0, -1), (0, 1), (1, -1), (1, 0), (1, 1)]

/-- `ChessGame._get_king_moves`. -/
def get_king_moves (b : Board) (row col : Int) (color : Color) : List (Int × Int) :=
  king_offsets.foldl
    (fun moves d =>
      let r := row + d.1
      let c := col + d.2
      if 0 ≤ r ∧ r < 8 ∧ 0 ≤ c ∧ c < 8 then
        match b r c with
        | none => moves ++ [(r, c)]
        | some target => if target.1 ≠ color then moves ++ [(r, c)] else moves
      else moves) []

/-- The row-major scan order `for r in range(8): for c in range(8)`. -/
def all_squares : List (Int × Int) :=
  (List.range 8).flatMap fun r => (List.range 8).map fun c => (Int.ofNat r, Int.ofNat c)

/-- `ChessGame._find_king`: first square (row-major) holding `(color, king)`. -/
def find_king (b : Board) (color : Color) : Option (Int × Int) :=
  all_squares.find? fun s => b s.1 s.2 == some (color, PieceType.king)

/-- `ChessGame._get_raw_moves`: move generation without check validation;
pawns contribute only their two forward diagonals (bounds-checked,
occupancy ignored), the `for dc in [-1, 1]` loop unrolled in order. -/
def get_raw_moves (b : Board) (row col : Int) (piece : Piece) : List (Int × Int) :=
  match piece.2 with
  | PieceType.pawn =>
    let direction : Int := if piece.1 = Color.white then -1 else 1
    let new_row := row + direction
    (if 0 ≤ new_row ∧ new_row < 8 ∧ 0 ≤ col + -1 ∧ col + -1 < 8 then
      [(new_row, col + -1)]
    else []) ++
    (if 0 ≤ new_row ∧ new_row < 8 ∧ 0 ≤ col + 1 ∧ col + 1 < 8 then
      [(new_row, col + 1)]
    else [])
  | PieceType.rook => get_rook_moves b row col piece.1
  | PieceType.knight => get_knight_moves b row col piece.1
  | PieceType.bishop => get_bishop_moves b row col piece.1
  | PieceType.queen => get_queen_moves b row col piece.1
  | PieceType.king => get_king_moves b row col piece.1

/-- `ChessGame._is_square_attacked`: some piece of `by_color` has
`(row, col)` among its raw moves. -/
def is_square_attacked (b : Board) (row col : Int) (by_color : Color) : Bool :=
  all_squares.any fun s =>
    match b s.1 s.2 with
    | some piece =>
      piece.1 == by_color && decide ((row, col) ∈ get_raw_moves b s.1 s.2 piece)
    | none => false

/-- `ChessGame._would_be_in_check` with its board mutations made explicit:
the returned board is the board as the method leaves it (it saves the two
occupants, applies the move, inspects, and restores on both return paths). -/
def would_be_in_check_sim (b : Board) (from_row from_col to_row to_col : Int)
    (color : Color) : Bool × Board :=
  let original_piece := b to_row to_col
  let moving_piece := b from_row from_col
  let moved := set_square (set_square b to_row to_col moving_piece) from_row from_col none
  match find_king moved color with
  | none =>
    (true, set_square (set_square moved from_row from_col moving_piece)
      to_row to_col original_piece)
  | some king_pos =>
    let opponent := if color = Color.white then Color.black else Color.white
    let in_check := is_square_attacked moved king_pos.1 king_pos.2 opponent
    (in_check, set_square (set_square moved from_row from_col moving_piece)
      to_row to_col original_piece)

/-- The boolean verdict of `ChessGame._would_be_in_check`. -/
def would_be_in_check (b : Board) (from_row from_col to_row to_col : Int)
    (color : Color) : Bool :=
  (would_be_in_check_sim b from_row from_col to_row to_col color).1

/-- `ChessGame.get_valid_moves`: pseudo-legal moves of the occupant,
filtered by the legality simulation. -/
def get_valid_moves (b : Board) (row col : Int) : List (Int × Int) :=
  match get_piece b row col with
  | none => []
  | some (color, piece_type) =>
    let moves : List (Int × Int) :=
      match piece_type with
      | PieceType.pawn => get_pawn_moves b row col color
      | PieceType.rook => get_rook_moves b row col color
      | PieceType.knight => get_knight_moves b row col color
      | PieceType.bishop => get_bishop_moves b row col color
      | PieceType.queen => get_queen_moves b row col color
      | PieceType.king => get_king_moves b row col color
    moves.filter fun m => !would_be_in_check b row col m.1 m.2 color

/-- `ChessGame.is_in_check`: `False` when the king is absent. -/
def is_in_check (b : Board) (color : Color) : Bool :=
  match find_king b color with
  | none => false
  | some king_pos =>
    let opponent := if color = Color.white then Color.black else Color.white
    is_square_attacked b king_pos.1 king_pos.2 opponent

/-- `ChessGame._has_valid_moves`. -/
def has_valid_moves (b : Board) (color : Color) : Bool :=
  all_squares.any fun s =>
    match b s.1 s.2 with
    | some piece => piece.1 == color && !(get_valid_moves b s.1 s.2).isEmpty
    | none => false

/-- `ChessGame.is_checkmate`. -/
def is_checkmate (b : Board) (color : Color) : Bool :=
  is_in_check b color && !has_valid_moves b color

/-- `ChessGame.is_stalemate`. -/
def is_stalemate (b : Board) (color : Color) : Bool :=
  !is_in_check b color && !has_valid_moves b color

/-- The mutable attributes of `ChessGame` set in `reset`. -/
structure GameState where
  board : Board
  current_turn : Color
  selected_piece : Option (Int × Int)
  valid_moves : List (Int × Int)
  game_over : Bool
  winner : Option Color
  in_check : Bool

/-- `ChessGame.select_piece`: returns the new state and the success flag. -/
def select_piece (g : GameState) (row col : Int) : GameState × Bool :=
  match get_piece g.board row col with
  | some piece =>
    if piece.1 = g.current_turn then
      ({ g with
          selected_piece := some (row, col)
          valid_moves := get_valid_moves g.board row col }, true)
    else (g, false)
  | none => (g, false)

/-- `ChessGame.move_piece`: returns the new state and the success flag. -/
def move_piece (g : GameState) (to_row to_col : Int) : GameState × Bool :=
  match g.selected_piece with
  | none => (g, false)
  | some (from_row, from_col) =>
    if (to_row, to_col) ∈ g.valid_moves then
      let b1 := set_square g.board to_row to_col (g.board from_row from_col)
      let b2 := set_square b1 from_row from_col none
      let new_turn := if g.current_turn = Color.white then Color.black else Color.white
      let g1 : GameState :=
        { g with
            board := b2
            selected_piece := none
            valid_moves := []
            current_turn := new_turn
            in_check := is_in_check b2 new_turn }
      if is_checkmate b2 new_turn then
        ({ g1 with
            game_over := true
            winner := some (if new_turn = Color.black then Color.white else Color.black) },
         true)
      else if is_stalemate b2 new_turn then
        ({ g1 with game_over := true, winner := none }, true)
      else (g1, true)
    else (g, false)

/-- `ChessGame.handle_click`. -/
def handle_click (g : GameState) (row col : Int) : GameState :=
  if g.game_over then g
  else if (row, col) ∈ g.valid_moves then (move_piece g row col).1
  else
    match get_piece g.board row col with
    | some piece =>
      if piece.1 = g.current_turn then (select_piece g row col).1
      else { g with selected_piece := none, valid_moves := [] }
    | none => { g with selected_piece := none, valid_moves := [] }

/-- The back rank of `ChessGame._setup_board`. -/
def back_row : List PieceType :=
  [PieceType.rook, PieceType.knight, PieceType.bishop, PieceType.queen,
   PieceType.king, PieceType.bishop, PieceType.knight, PieceType.rook]

/-- The board `ChessGame._setup_board` produces. -/
def initial_board : Board := fun r c =>
  if 0 ≤ c ∧ c < 8 then
    match back_row.get? c.toNat with
    | some pt =>
      if r = 0 then some (Color.black, pt)
      else if r = 1 then some (Color.black, PieceType.pawn)
      else if r = 6 then some (Color.white, PieceType.pawn)
      else if r = 7 then some (Color.white, pt)
      else none
    | none => none
  else none

/-- The state `ChessGame.reset` produces. -/
def reset_state : GameState :=
  { board := initial_board
    current_turn := Color.white
    selected_piece := none
    valid_moves := []
    game_over := false
    winner := none
    in_check := false }

/-- A board with no pieces at all. -/
def empty_board : Board := fun _ _ => none

/-- The initial state with the game-over flag forced on: the board, turn and
selection are untouched, as after a direct mutation of the flag. -/
def game_over_state : GameState :=
  { reset_state with game_over := true }

/-- Black king a1, white queen c4, white king e8 (row 7): white to move with
the queen selected; moving the queen to `(2, 1)` stalemates black. -/
def stalemate_board : Board := fun r c =>
  if r = 0 ∧ c = 0 then some (Color.black, PieceType.king)
  else if r = 2 ∧ c = 3 then some (Color.white, PieceType.queen)
  else if r = 7 ∧ c = 4 then some (Color.white, PieceType.king)
  else none

/-- A state about to play the stalemating queen move `(2,3) → (2,1)`. -/
def stalemate_state : GameState :=
  { board := stalemate_board
    current_turn := Color.white
    selected_piece := some (2, 3)
    valid_moves := [(2, 1)]
    game_over := false
    winner := none
    in_check := false }

/-- Black king a1, white queen at `(4, 4)`, white king at `(7, 4)`. -/
def midgame_board : Board := fun r c =>
  if r = 0 ∧ c = 0 then some (Color.black, PieceType.king)
  else if r = 4 ∧ c = 4 then some (Color.white, PieceType.queen)
  else if r = 7 ∧ c = 4 then some (Color.white, PieceType.king)
  else none

/-- A state about to play the quiet queen move `(4,4) → (4,3)`. -/
def midgame_state : GameState :=
  { board := midgame_board
    current_turn := Color.white
    selected_piece := some (4, 4)
    valid_moves := [(4, 3)]
    game_over := false
    winner := none
    in_check := false }

/-! ## Helper lemmas -/

/-- Membership in the row-major square scan is exactly on-board coordinates. -/
theorem mem_all_squares (r c : Int) :
    (r, c) ∈ all_squares ↔ 0 ≤ r ∧ r < 8 ∧ 0 ≤ c ∧ c < 8 := by
  constructor
  · intro h
    unfold all_squares at h
    rw [List.mem_flatMap] at h
    obtain ⟨n, hn, h2⟩ := h
    rw [List.mem_map] at h2
    obtain ⟨m, hm, heq⟩ := h2
    rw [List.mem_range] at hn hm
    cases heq
    simp only [Int.ofNat_eq_natCast]
    omega
  · intro h
    unfold all_squares
    rw [List.mem_flatMap]
    refine ⟨r.toNat, ?_, ?_⟩
    · rw [List.mem_range]; omega
    · rw [List.mem_map]
      refine ⟨c.toNat, ?_, ?_⟩
      · rw [List.mem_range]; omega
      · rw [Prod.mk.injEq]
        simp only [Int.ofNat_eq_natCast]
        constructor <;> omega

/-- There is no first king square when no square holds the king. -/
theorem find_king_eq_none (b : Board) (color : Color)
    (h : ∀ r c : Int, b r c ≠ some (color, PieceType.king)) :
    find_king b color = none := by
  unfold find_king
  rw [List.find?_eq_none]
  intro s _
  simp [h s.1 s.2]

/-! ## Claims -/

/-- C4: `_would_be_in_check` restores the board exactly to its pre-call
contents on every return path, including the path where the mover's king
cannot be located after the simulated move; computing legal moves therefore
never changes the board across calls. -/
theorem would_be_in_check_sim_restores (b : Board)
    (from_row from_col to_row to_col : Int) (color : Color) :
    (would_be_in_check_sim b from_row from_col to_row to_col color).2 = b := by
  funext x y
  simp only [would_be_in_check_sim]
  rcases hfk : find_king
      (set_square (set_square b to_row to_col (b from_row from_col)) from_row from_col none)
      color with _ | kp <;>
    simp only [hfk, set_square] <;>
    split_ifs <;> simp_all

/-- C9: selecting the same square twice in a row, with no intervening move,
caches the same legal-move list as selecting it once. -/
theorem select_piece_idempotent (g : GameState) (row col : Int) :
    (select_piece (select_piece g row col).1 row col).1.valid_moves =
      (select_piece g row col).1.valid_moves := by
  rcases hp : get_piece g.board row col with _ | piece
  · simp [select_piece, hp]
  · by_cases hc : piece.1 = g.current_turn
    · simp [select_piece, hp, hc]
    · simp [select_piece, hp, hc]

/-- C10: on a board with no king of color `c`, the public query `is_in_check c`
returns `false` (no conservative treat-as-check fallback here). -/
theorem is_in_check_no_king (b : Board) (color : Color)
    (h : ∀ r c : Int, b r c ≠ some (color, PieceType.king)) :
    is_in_check b color = false := by
  simp [is_in_check, find_king_eq_none b color h]

/-- Witness for C10: the empty board, white. -/
theorem is_in_check_no_king_witness : is_in_check empty_board Color.white = false :=
  is_in_check_no_king empty_board Color.white (fun _ _ h => Option.noConfusion h)

/-- C5: a successful `move_piece` flips the side to move exactly once, and a
failed `move_piece` (no selection, or destination not among the cached legal
moves) leaves the side to move unchanged. -/
theorem move_piece_turn_alternation (g : GameState) (to_row to_col : Int) :
    ((move_piece g to_row to_col).2 = true →
      (move_piece g to_row to_col).1.current_turn =
        (if g.current_turn = Color.white then Color.black else Color.white)) ∧
    ((move_piece g to_row to_col).2 = false →
      (move_piece g to_row to_col).1.current_turn = g.current_turn) := by
  rcases hsel : g.selected_piece with _ | ⟨from_row, from_col⟩
  · simp [move_piece, hsel]
  · by_cases hmem : (to_row, to_col) ∈ g.valid_moves
    · simp only [move_piece, hsel, if_pos hmem]
      split_ifs <;> simp
    · simp [move_piece, hsel, hmem]

/-- Counterexample to C3 as stated: in a state whose game-over flag is set,
`select_piece` on a square holding a piece of the side to move still succeeds
and changes the selection, instead of being a failing no-op. -/
theorem select_piece_ignores_game_over :
    game_over_state.game_over = true ∧
    (select_piece game_over_state 6 0).2 = true ∧
    (select_piece game_over_state 6 0).1.selected_piece = some (6, 0) := by
  refine ⟨rfl, rfl, rfl⟩

/-- C3 (amended): `select_piece` does not consult the game-over flag.  It
fails and leaves the state unchanged exactly when the square is empty or
holds a piece whose color differs from the side to move; otherwise — even
when the game is over — it sets the selection and caches the legal moves and
returns success.  The game-over guard lives only in the `handle_click`
dispatcher, which ignores clicks entirely once the game is over. -/
theorem select_piece_characterization (g : GameState) (row col : Int) :
    ((select_piece g row col).2 = true ↔
      ∃ piece, get_piece g.board row col = some piece ∧ piece.1 = g.current_turn) ∧
    ((select_piece g row col).2 = true →
      (select_piece g row col).1 =
        { g with
            selected_piece := some (row, col)
            valid_moves := get_valid_moves g.board row col }) ∧
    ((select_piece g row col).2 = false → (select_piece g row col).1 = g) ∧
    (g.game_over = true → handle_click g row col = g) := by
  have hhc : g.game_over = true → handle_click g row col = g := by
    intro hgo
    simp [handle_click, hgo]
  rcases hp : get_piece g.board row col with _ | piece
  · simp only [select_piece, hp]
    simp
    exact hhc
  · by_cases hc : piece.1 = g.current_turn
    · simp only [select_piece, hp]
      simp [hc]
      exact hhc
    · simp only [select_piece, hp]
      simp [hc]
      exact hhc

/-- C8: after `reset`, white is to move, white is not in check, and the
legal-move counts of all white pieces on the board sum to 20. -/
theorem initial_position_spec :
    reset_state.current_turn = Color.white ∧
    is_in_check reset_state.board Color.white = false ∧
    (all_squares.foldl
      (fun acc s =>
        acc + (match reset_state.board s.1 s.2 with
               | some piece =>
                 if piece.1 = Color.white then
                   (get_valid_moves reset_state.board s.1 s.2).length
                 else 0
               | none => 0)) 0) = 20 := by
  decide

/-- C2: after a successful `move_piece`, if the new side to move has no piece
with a non-empty legal-move set, the game becomes terminal: game over, with
winner the color that just moved when the new side to move is in check
(checkmate), and with no winner when it is not in check (stalemate). -/
theorem move_piece_terminal (g : GameState) (to_row to_col : Int)
    (hs : (move_piece g to_row to_col).2 = true)
    (hnm : has_valid_moves (move_piece g to_row to_col).1.board
             (move_piece g to_row to_col).1.current_turn = false) :
    (move_piece g to_row to_col).1.game_over = true ∧
    (move_piece g to_row to_col).1.winner =
      (if is_in_check (move_piece g to_row to_col).1.board
            (move_piece g to_row to_col).1.current_turn = true
       then some g.current_turn else none) := by
  rcases hsel : g.selected_piece with _ | ⟨from_row, from_col⟩
  · simp [move_piece, hsel] at hs
  · by_cases hmem : (to_row, to_col) ∈ g.valid_moves
    · simp only [move_piece, hsel, if_pos hmem] at hnm ⊢
      set b2 := set_square (set_square g.board to_row to_col (g.board from_row from_col))
          from_row from_col none with hb2
      set nt := (if g.current_turn = Color.white then Color.black else Color.white) with hnt
      by_cases hcm : is_checkmate b2 nt = true
      · simp only [if_pos hcm] at hnm ⊢
        rw [is_checkmate, Bool.and_eq_true] at hcm
        simp only [hcm.1, if_pos rfl]
        refine ⟨by trivial, ?_⟩
        rcases hturn : g.current_turn with _ | _ <;> simp [hnt, hturn]
      · simp only [if_neg hcm] at hnm ⊢
        by_cases hsm : is_stalemate b2 nt = true
        · simp only [if_pos hsm] at hnm ⊢
          rw [is_stalemate, Bool.and_eq_true, Bool.not_eq_true'] at hsm
          simp [hsm.1]
        · simp only [if_neg hsm] at hnm ⊢
          have hnm2 : has_valid_moves b2 nt = false := hnm
          rw [is_stalemate, Bool.and_eq_true, Bool.not_eq_true'] at hsm
          rw [is_checkmate, Bool.and_eq_true] at hcm
          simp only [hnm2, Bool.not_false, and_true] at hcm hsm
          rcases hic : is_in_check b2 nt with _ | _
          · exact absurd hic hsm
          · exact absurd hic hcm
    · simp [move_piece, hsel, hmem] at hs

/-- Witness for C2: the stalemating queen move on `stalemate_state`. -/
theorem move_piece_terminal_witness :
    (move_piece stalemate_state 2 1).1.game_over = true ∧
    (move_piece stalemate_state 2 1).1.winner =
      (if is_in_check (move_piece stalemate_state 2 1).1.board
            (move_piece stalemate_state 2 1).1.current_turn = true
       then some stalemate_state.current_turn else none) :=
  move_piece_terminal stalemate_state 2 1 (by decide) (by decide)

/-- C1: every destination returned by `get_valid_moves` for a square holding
a piece of color `c`, when played (piece placed on the destination, origin
emptied), yields a board in which the king of `c` is not attacked by the
opposing color. -/
theorem get_valid_moves_sound (b : Board) (row col : Int) (p : Piece)
    (hp : get_piece b row col = some p) (d : Int × Int)
    (hd : d ∈ get_valid_moves b row col) :
    is_in_check (set_square (set_square b d.1 d.2 (b row col)) row col none) p.1 = false := by
  rcases p with ⟨color, ptype⟩
  simp only [get_valid_moves, hp] at hd
  rw [List.mem_filter] at hd
  obtain ⟨-, hpred⟩ := hd
  simp only [Bool.not_eq_true'] at hpred
  simp only [would_be_in_check, would_be_in_check_sim] at hpred
  rcases hfk : find_king (set_square (set_square b d.1 d.2 (b row col)) row col none) color
    with _ | king_pos
  · rw [hfk] at hpred
    simp at hpred
  · rw [hfk] at hpred
    simp only at hpred
    simp only [is_in_check, hfk]
    exact hpred

/-- Witness for C1: the white pawn push a2–a3 from the initial position. -/
theorem get_valid_moves_sound_witness :
    is_in_check (set_square (set_square initial_board 5 0 (initial_board 6 0)) 6 0 none)
      Color.white = false :=
  get_valid_moves_sound initial_board 6 0 (Color.white, PieceType.pawn) (by decide)
    (5, 0) (by decide)

/-- Membership in a conditionally produced list with empty fallback. -/
theorem mem_ite_list {α : Type} (P : Prop) [Decidable P] (x : α) (l : List α) :
    (x ∈ if P then l else []) ↔ P ∧ x ∈ l := by
  split_ifs with h <;> simp [h]

/-- Closed-form membership in `_get_pawn_moves`: the forward block (with the
double push nested under the single push), then the two diagonal captures. -/
theorem mem_get_pawn_moves (b : Board) (row col tr tc : Int) (color : Color) :
    ((tr, tc) ∈ get_pawn_moves b row col color) ↔
      ((0 ≤ row + (if color = Color.white then -1 else 1) ∧
        row + (if color = Color.white then -1 else 1) < 8 ∧
        b (row + (if color = Color.white then -1 else 1)) col = none ∧
        ((tr, tc) = (row + (if color = Color.white then -1 else 1), col) ∨
         (row = (if color = Color.white then 6 else 1) ∧
          b (row + 2 * (if color = Color.white then -1 else 1)) col = none ∧
          (tr, tc) = (row + 2 * (if color = Color.white then -1 else 1), col)))) ∨
       (0 ≤ row + (if color = Color.white then -1 else 1) ∧
        row + (if color = Color.white then -1 else 1) < 8 ∧
        0 ≤ col + -1 ∧ col + -1 < 8 ∧
        (∃ piece, b (row + (if color = Color.white then -1 else 1)) (col + -1) = some piece ∧
          piece.1 ≠ color) ∧
        (tr, tc) = (row + (if color = Color.white then -1 else 1), col + -1)) ∨
       (0 ≤ row + (if color = Color.white then -1 else 1) ∧
        row + (if color = Color.white then -1 else 1) < 8 ∧
        0 ≤ col + 1 ∧ col + 1 < 8 ∧
        (∃ piece, b (row + (if color = Color.white then -1 else 1)) (col + 1) = some piece ∧
          piece.1 ≠ color) ∧
        (tr, tc) = (row + (if color = Color.white then -1 else 1), col + 1))) := by
  have hbw : Color.black ≠ Color.white := fun h => Color.noConfusion h
  rcases color with _ | _
  · simp only [get_pawn_moves, reduceIte, List.mem_append, mem_ite_list, List.mem_cons,
      List.mem_singleton]
    rcases hb1 : b (row + -1) (col + -1) with _ | p1 <;>
      rcases hb2 : b (row + -1) (col + 1) with _ | p2 <;>
      simp only [hb1, hb2, List.not_mem_nil, or_false, and_false, false_and,
        mem_ite_list, List.mem_singleton] <;>
      simp [and_assoc, or_assoc]
  · simp only [get_pawn_moves, if_neg hbw, List.mem_append, mem_ite_list, List.mem_cons,
      List.mem_singleton]
    rcases hb1 : b (row + 1) (col + -1) with _ | p1 <;>
      rcases hb2 : b (row + 1) (col + 1) with _ | p2 <;>
      simp only [hb1, hb2, List.not_mem_nil, or_false, and_false, false_and,
        mem_ite_list, List.mem_singleton] <;>
      simp [and_assoc, or_assoc]

/-- C7: pawn pseudo-legal moves.  The single push is generated exactly when
the (on-board) square ahead is empty; the double push exactly when the pawn
stands on its starting rank with both squares ahead empty; each diagonal move
exactly when that (on-board) diagonal square holds an opposing piece. -/
theorem pawn_pseudo_legal_spec (b : Board) (row col : Int) (color : Color) :
    (((row + (if color = Color.white then -1 else 1), col) ∈
        get_pawn_moves b row col color) ↔
      (0 ≤ row + (if color = Color.white then -1 else 1) ∧
       row + (if color = Color.white then -1 else 1) < 8 ∧
       b (row + (if color = Color.white then -1 else 1)) col = none)) ∧
    (((row + 2 * (if color = Color.white then -1 else 1), col) ∈
        get_pawn_moves b row col color) ↔
      (row = (if color = Color.white then 6 else 1) ∧
       b (row + (if color = Color.white then -1 else 1)) col = none ∧
       b (row + 2 * (if color = Color.white then -1 else 1)) col = none)) ∧
    (((row + (if color = Color.white then -1 else 1), col + -1) ∈
        get_pawn_moves b row col color) ↔
      (0 ≤ row + (if color = Color.white then -1 else 1) ∧
       row + (if color = Color.white then -1 else 1) < 8 ∧
       0 ≤ col + -1 ∧ col + -1 < 8 ∧
       ∃ piece, b (row + (if color = Color.white then -1 else 1)) (col + -1) = some piece ∧
         piece.1 ≠ color)) ∧
    (((row + (if color = Color.white then -1 else 1), col + 1) ∈
        get_pawn_moves b row col color) ↔
      (0 ≤ row + (if color = Color.white then -1 else 1) ∧
       row + (if color = Color.white then -1 else 1) < 8 ∧
       0 ≤ col + 1 ∧ col + 1 < 8 ∧
       ∃ piece, b (row + (if color = Color.white then -1 else 1)) (col + 1) = some piece ∧
         piece.1 ≠ color)) := by
  have hbw : Color.black ≠ Color.white := fun h => Color.noConfusion h
  refine ⟨?_, ?_, ?_, ?_⟩
  · rw [mem_get_pawn_moves]
    rcases color with _ | _ <;>
      simp only [reduceIte, if_neg hbw] <;>
      (constructor
       · rintro (⟨h1, h2, h3, _⟩ | ⟨_, _, _, _, _, heq⟩ | ⟨_, _, _, _, _, heq⟩)
         · exact ⟨h1, h2, h3⟩
         · rw [Prod.mk.injEq] at heq
           omega
         · rw [Prod.mk.injEq] at heq
           omega
       · rintro ⟨h1, h2, h3⟩
         exact Or.inl ⟨h1, h2, h3, Or.inl (by trivial)⟩)
  · rw [mem_get_pawn_moves]
    rcases color with _ | _ <;>
      simp only [reduceIte, if_neg hbw] <;>
      (constructor
       · rintro (⟨h1, h2, h3, heq | ⟨h6, h7, heq⟩⟩ | ⟨_, _, _, _, _, heq⟩ |
           ⟨_, _, _, _, _, heq⟩)
         · rw [Prod.mk.injEq] at heq
           omega
         · exact ⟨h6, h3, h7⟩
         · rw [Prod.mk.injEq] at heq
           omega
         · rw [Prod.mk.injEq] at heq
           omega
       · rintro ⟨h6, h3, h7⟩
         exact Or.inl ⟨by omega, by omega, h3, Or.inr ⟨h6, h7, by trivial⟩⟩)
  · rw [mem_get_pawn_moves]
    rcases color with _ | _ <;>
      simp only [reduceIte, if_neg hbw] <;>
      (constructor
       · rintro (⟨_, _, _, heq | ⟨_, _, heq⟩⟩ | ⟨h1, h2, h3, h4, h5, _⟩ |
           ⟨_, _, _, _, _, heq⟩)
         · rw [Prod.mk.injEq] at heq
           omega
         · rw [Prod.mk.injEq] at heq
           omega
         · exact ⟨h1, h2, h3, h4, h5⟩
         · rw [Prod.mk.injEq] at heq
           omega
       · rintro ⟨h1, h2, h3, h4, h5⟩
         exact Or.inr (Or.inl ⟨h1, h2, h3, h4, h5, by trivial⟩))
  · rw [mem_get_pawn_moves]
    rcases color with _ | _ <;>
      simp only [reduceIte, if_neg hbw] <;>
      (constructor
       · rintro (⟨_, _, _, heq | ⟨_, _, heq⟩⟩ | ⟨_, _, _, _, _, heq⟩ |
           ⟨h1, h2, h3, h4, h5, _⟩)
         · rw [Prod.mk.injEq] at heq
           omega
         · rw [Prod.mk.injEq] at heq
           omega
         · rw [Prod.mk.injEq] at heq
           omega
         · exact ⟨h1, h2, h3, h4, h5⟩
       · rintro ⟨h1, h2, h3, h4, h5⟩
         exact Or.inr (Or.inr ⟨h1, h2, h3, h4, h5, by trivial⟩))

/-- C6: a square is attacked by a color iff some piece of that color has it
in its raw move set; the raw set coincides with the pseudo-legal generator
for rook, knight, bishop, queen and king; a pawn's raw set is exactly its
two on-board forward diagonals regardless of occupancy, and never contains
the single- or double-push square ahead of the pawn. -/
theorem attack_uses_raw_moves (b : Board) (row col : Int) (by_color : Color) :
    (is_square_attacked b row col by_color = true ↔
      ∃ r c piece, (0 ≤ r ∧ r < 8 ∧ 0 ≤ c ∧ c < 8) ∧ b r c = some piece ∧
        piece.1 = by_color ∧ (row, col) ∈ get_raw_moves b r c piece) ∧
    (∀ r c : Int,
      get_raw_moves b r c (by_color, PieceType.rook) = get_rook_moves b r c by_color) ∧
    (∀ r c : Int,
      get_raw_moves b r c (by_color, PieceType.knight) = get_knight_moves b r c by_color) ∧
    (∀ r c : Int,
      get_raw_moves b r c (by_color, PieceType.bishop) = get_bishop_moves b r c by_color) ∧
    (∀ r c : Int,
      get_raw_moves b r c (by_color, PieceType.queen) = get_queen_moves b r c by_color) ∧
    (∀ r c : Int,
      get_raw_moves b r c (by_color, PieceType.king) = get_king_moves b r c by_color) ∧
    (∀ r c tr tc : Int,
      ((tr, tc) ∈ get_raw_moves b r c (by_color, PieceType.pawn) ↔
        (tr = r + (if by_color = Color.white then -1 else 1) ∧
         (tc = c + -1 ∨ tc = c + 1) ∧ 0 ≤ tr ∧ tr < 8 ∧ 0 ≤ tc ∧ tc < 8))) ∧
    (∀ r c : Int,
      decide ((r + (if by_color = Color.white then -1 else 1), c) ∈
        get_raw_moves b r c (by_color, PieceType.pawn)) = false ∧
      decide ((r + 2 * (if by_color = Color.white then -1 else 1), c) ∈
        get_raw_moves b r c (by_color, PieceType.pawn)) = false) := by
  have hbw : Color.black ≠ Color.white := fun h => Color.noConfusion h
  have hpawn : ∀ r c tr tc : Int,
      ((tr, tc) ∈ get_raw_moves b r c (by_color, PieceType.pawn) ↔
        (tr = r + (if by_color = Color.white then -1 else 1) ∧
         (tc = c + -1 ∨ tc = c + 1) ∧ 0 ≤ tr ∧ tr < 8 ∧ 0 ≤ tc ∧ tc < 8)) := by
    intro r c tr tc
    rcases by_color with _ | _ <;>
      simp only [get_raw_moves, reduceIte, if_neg hbw, List.mem_append, mem_ite_list,
        List.mem_singleton, Prod.mk.injEq] <;>
      omega
  refine ⟨?_, fun r c => rfl, fun r c => rfl, fun r c => rfl, fun r c => rfl, fun r c => rfl,
    hpawn, ?_⟩
  · rw [is_square_attacked, List.any_eq_true]
    constructor
    · rintro ⟨s, hs, hpred⟩
      rcases hbs : b s.1 s.2 with _ | piece
      · simp only [hbs] at hpred
        exact Bool.noConfusion hpred
      · simp only [hbs, Bool.and_eq_true, beq_iff_eq, decide_eq_true_eq] at hpred
        exact ⟨s.1, s.2, piece, (mem_all_squares s.1 s.2).mp hs, hbs, hpred.1, hpred.2⟩
    · rintro ⟨r, c, piece, hbounds, hb, hc, hmem⟩
      refine ⟨(r, c), (mem_all_squares r c).mpr hbounds, ?_⟩
      simp only [hb, Bool.and_eq_true, beq_iff_eq, decide_eq_true_eq]
      exact ⟨hc, hmem⟩
  · intro r c
    constructor
    · rw [decide_eq_false_iff_not, hpawn r c]
      rcases by_color with _ | _ <;> simp only [reduceIte, if_neg hbw] <;> omega
    · rw [decide_eq_false_iff_not, hpawn r c]
      rcases by_color with _ | _ <;> simp only [reduceIte, if_neg hbw] <;> omega
